import Mathlib

/-!
Verification of the call-stack subsystem of the Nickel evaluator
(`src/eval/callstack.rs`): the marker log (`CallStack`), its mutators
(`enter_var`, `enter_app`, `enter_fun`, `enter_field`, `truncate`, `len`) and
the call-chain reconstruction algorithm (`group_by_calls`).

The position and identifier types live in modules that are not part of the
sampled source (`position.rs`, `identifier.rs`); they are modelled from the
spec, as indicated on each definition. Everything else is translated directly
from `callstack.rs`.

Machine integers (byte offsets, file ids) are modelled as `Nat`: the code
performs no arithmetic on them, only comparisons. The Rust `Option::unwrap`
panic is modelled by `Option`: the merge loop of `group_by_calls` returns
`none` exactly when one of its `pos.unwrap()` calls would panic.
-/

/-- Modelled from the spec: an opaque file identifier (`codespan::FileId`),
external to the sampled source. -/
abbrev FileId := Nat

/-- Modelled from the spec (section 2, "Position model"): a source span is a
file identifier plus start/end offsets. Mirrors `RawSpan` from the position
module, which is not part of the sampled source. The Rust field `end` is named
`stop` here because `end` is a Lean keyword. -/
structure RawSpan where
  src_id : FileId
  start : Nat
  stop : Nat
  deriving DecidableEq, Repr

/-- Modelled from the spec (section 9): the containment partial order on spans
used by the source's comparisons (`span <= span_call`): span `a` is contained
in span `b` iff `a.start >= b.start` and `a.end <= b.end`. -/
def RawSpan.le (a b : RawSpan) : Prop :=
  b.start ≤ a.start ∧ a.stop ≤ b.stop

instance (a b : RawSpan) : Decidable (RawSpan.le a b) :=
  instDecidableAnd

/-- Modelled from the spec (section 2): a position tag distinguishing
"original" (points at an actual source occurrence), "inherited" (copied from
elsewhere) and "undefined" (no source attribution). Mirrors `TermPos` from the
position module, which is not part of the sampled source. -/
inductive TermPos where
  | Original : RawSpan → TermPos
  | Inherited : RawSpan → TermPos
  | None : TermPos
  deriving DecidableEq, Repr

/-- Modelled from the spec: a position is defined when it is not the
undefined/synthetic tag (`TermPos::is_def`). -/
def TermPos.is_def : TermPos → Bool
  | TermPos.None => false
  | _ => true

/-- Modelled from the spec: extraction of the span of a position
(`TermPos::unwrap`). The Rust `unwrap` panics on an undefined position; the
panic is modelled by `none`. -/
def TermPos.unwrap : TermPos → Option RawSpan
  | TermPos.Original sp => some sp
  | TermPos.Inherited sp => some sp
  | TermPos.None => none

/-- Modelled from the spec: an identifier carries its source name and a mark
saying whether it was generated by a program transformation rather than
written by the user. Mirrors `Ident` from the identifier module, which is not
part of the sampled source. -/
structure Ident where
  label : String
  generated : Bool
  deriving DecidableEq, Repr

/-- Modelled from the spec: whether the identifier is compiler-generated
(`Ident::is_generated`). -/
def Ident.is_generated (id : Ident) : Bool :=
  id.generated

/-- Modelled from the spec (section 3): classification of a variable binding
(let-bound, lambda-bound, record-field-bound). The call stack stores it but
never inspects it. -/
inductive IdentKind where
  | Let : IdentKind
  | Lam : IdentKind
  | Record : IdentKind
  deriving DecidableEq, Repr

/-- A call stack element (`StackElem`). -/
inductive StackElem where
  | Fun : TermPos → StackElem
  | App : TermPos → StackElem
  | Var : IdentKind → Ident → TermPos → StackElem
  | Field : Ident → TermPos → TermPos → TermPos → StackElem
  deriving DecidableEq, Repr

/-- A call stack, saving the history of function calls
(`CallStack(pub Vec<StackElem>)`). The vector is modelled as a list in push
order: `Vec::push` appends at the end of the list. -/
abbrev CallStack := List StackElem

/-- Basic description of a function call (`CallDescr`). -/
structure CallDescr where
  head : Option Ident
  span : RawSpan
  deriving DecidableEq, Repr

/-- Push a marker to indicate that a var was entered (`CallStack::enter_var`). -/
def CallStack.enter_var (cs : CallStack) (kind : IdentKind) (id : Ident)
    (pos : TermPos) : CallStack :=
  cs ++ [StackElem.Var kind id pos]

/-- Push a marker to indicate that an application was entered
(`CallStack::enter_app`). Applications without positions, generated by the
interpreter, are ignored. -/
def CallStack.enter_app (cs : CallStack) (pos : TermPos) : CallStack :=
  if pos.is_def then cs ++ [StackElem.App pos] else cs

/-- Push a marker to indicate that a function body was entered
(`CallStack::enter_fun`). Applications without positions, generated by the
interpreter, are ignored. -/
def CallStack.enter_fun (cs : CallStack) (pos : TermPos) : CallStack :=
  if pos.is_def then cs ++ [StackElem.Fun pos] else cs

/-- Push a marker to indicate that a record field was entered
(`CallStack::enter_field`). -/
def CallStack.enter_field (cs : CallStack) (id : Ident)
    (pos_record pos_field pos_access : TermPos) : CallStack :=
  cs ++ [StackElem.Field id pos_record pos_field pos_access]

/-- Return the length of the callstack (`CallStack::len`). -/
def CallStack.len (cs : CallStack) : Nat :=
  cs.length

/-- Truncate the callstack at a certain size (`CallStack::truncate`). -/
def CallStack.truncate (cs : CallStack) (n : Nat) : CallStack :=
  cs.take n

/-- The filter of `group_by_calls` (lines 141-157 of `callstack.rs`): drop
generated variables, everything attributed to the builtin-contract file, and
`Fun`/`App` markers with inherited positions. The Rust match arms are
translated in order: the generated-variable arm fires first, then the big
or-pattern guarded by `src_id != contract_id`, then the catch-all. -/
def keepElem (contract_id : FileId) : StackElem → Bool
  | StackElem.Var _ id pos =>
      if id.is_generated then false
      else
        match pos with
        | TermPos.Original sp => sp.src_id != contract_id
        | TermPos.Inherited sp => sp.src_id != contract_id
        | TermPos.None => false
  | StackElem.Fun (TermPos.Original sp) => sp.src_id != contract_id
  | StackElem.Field _ _ _ pos_access =>
      match pos_access with
      | TermPos.Original sp => sp.src_id != contract_id
      | TermPos.Inherited sp => sp.src_id != contract_id
      | TermPos.None => false
  | StackElem.App (TermPos.Original sp) => sp.src_id != contract_id
  | _ => false

/-- One iteration of the merge loop of `group_by_calls` (lines 172-211 of
`callstack.rs`) on the state `(pending, entered)`. Both vectors are kept in
push order (top of the stack = last element). A `pos.unwrap()` that would
panic is modelled by the result `none`; in the `Var`/`Field` arm the unwrap
sits in the Rust match guard, so it only runs once the top pending call
exists and has no head yet. -/
def stepElem (st : List CallDescr × List CallDescr) (elem : StackElem) :
    Option (List CallDescr × List CallDescr) :=
  let pending := st.1
  let entered := st.2
  match elem with
  | StackElem.Var _ id pos | StackElem.Field id _ _ pos =>
      match pending.getLast? with
      | some cdescr =>
          if cdescr.head = none then
            match pos.unwrap with
            | none => none
            | some p =>
                if RawSpan.le p cdescr.span then
                  some (pending.dropLast ++ [{ cdescr with head := some id }],
                        entered)
                else
                  some (pending, entered)
          else
            some (pending, entered)
      | none => some (pending, entered)
  | StackElem.App pos =>
      match pos.unwrap with
      | none => none
      | some span =>
          match pending.getLast? with
          | some cdescr =>
              if RawSpan.le span cdescr.span ∧ span.start = cdescr.span.start then
                some (pending, entered)
              else
                some (pending ++ [{ head := none, span := span }], entered)
          | none => some (pending ++ [{ head := none, span := span }], entered)
  | StackElem.Fun pos =>
      match pos.unwrap with
      | none => none
      | some span =>
          match pending.getLast? with
          | some cdescr =>
              if cdescr.span = span then
                some (pending.dropLast, entered ++ [cdescr])
              else
                some (pending, entered)
          | none => some (pending, entered)

/-- Process a raw callstack by aggregating elements belonging to the same call
(`CallStack::group_by_calls`, lines 135-215 of `callstack.rs`). Returns the
closed calls from the most recent to the least recent together with the last
pending call, if any; `none` models a panic of one of the `pos.unwrap()`
calls. -/
def CallStack.group_by_calls (cs : CallStack) (contract_id : FileId) :
    Option (List CallDescr × Option CallDescr) :=
  let filtered := cs.filter (keepElem contract_id)
  match filtered.foldlM stepElem ([], []) with
  | none => none
  | some st => some (st.2.reverse, st.1.getLast?)

/-- The position a marker is attributed to by the filter of `group_by_calls`:
the `pos` field for `Fun`, `App` and `Var` markers and the access position for
`Field` markers. -/
def StackElem.attrPos : StackElem → TermPos
  | StackElem.Fun pos => pos
  | StackElem.App pos => pos
  | StackElem.Var _ _ pos => pos
  | StackElem.Field _ _ _ pos_access => pos_access

/-- Whether a marker's attributed position is defined and lies in the file
`f`. -/
def StackElem.attributedIn (e : StackElem) (f : FileId) : Bool :=
  match e.attrPos with
  | TermPos.Original sp => sp.src_id == f
  | TermPos.Inherited sp => sp.src_id == f
  | TermPos.None => false

/-- Whether a call description's head, if present, is a user-written (not
compiler-generated) identifier. -/
def CallDescr.headUngenerated (c : CallDescr) : Bool :=
  match c.head with
  | some id => !id.is_generated
  | none => true

/-- Whether a marker, if it is a `Field` marker, carries a user-written (not
compiler-generated) identifier. -/
def StackElem.fieldUngenerated : StackElem → Bool
  | StackElem.Field id _ _ _ => !id.is_generated
  | _ => true

/-- The identifier a marker offers as a potential call head: the identifier of
a `Var` or `Field` marker. -/
def StackElem.varFieldId : StackElem → Option Ident
  | StackElem.Var _ id _ => some id
  | StackElem.Field id _ _ _ => some id
  | _ => none

/-! ## Helper lemmas on the merge step -/

/-- The `Var` arm of the merge loop names the top pending call when that call
has no head yet and the identifier's span is contained in the call's span. -/
theorem stepElem_var_name (pending entered : List CallDescr) (cdescr : CallDescr)
    (kind : IdentKind) (id : Ident) (pos : TermPos) (p : RawSpan)
    (hlast : pending.getLast? = some cdescr) (hhead : cdescr.head = none)
    (hu : pos.unwrap = some p) (hle : RawSpan.le p cdescr.span) :
    stepElem (pending, entered) (StackElem.Var kind id pos)
      = some (pending.dropLast ++ [{ cdescr with head := some id }], entered) := by
  simp [stepElem, hlast, hhead, hu, hle]

/-- The `App` arm pushes a new pending call when no call is pending. -/
theorem stepElem_app_first (pending entered : List CallDescr)
    (pos : TermPos) (sp : RawSpan)
    (hu : pos.unwrap = some sp) (hlast : pending.getLast? = none) :
    stepElem (pending, entered) (StackElem.App pos)
      = some (pending ++ [{ head := none, span := sp }], entered) := by
  simp [stepElem, hlast, hu]

/-- The `App` arm absorbs a curried sub-application: when the new span is
contained in the top pending call's span and both share the same start offset,
nothing is pushed. -/
theorem stepElem_app_absorb (pending entered : List CallDescr) (cdescr : CallDescr)
    (pos : TermPos) (sp : RawSpan)
    (hu : pos.unwrap = some sp) (hlast : pending.getLast? = some cdescr)
    (hle : RawSpan.le sp cdescr.span) (hstart : sp.start = cdescr.span.start) :
    stepElem (pending, entered) (StackElem.App pos) = some (pending, entered) := by
  simp [stepElem, hlast, hu, hle, hstart]

/-- The `Fun` arm closes the top pending call when the spans match exactly. -/
theorem stepElem_fun_close (pending entered : List CallDescr) (cdescr : CallDescr)
    (pos : TermPos) (sp : RawSpan)
    (hu : pos.unwrap = some sp) (hlast : pending.getLast? = some cdescr)
    (hspan : cdescr.span = sp) :
    stepElem (pending, entered) (StackElem.Fun pos)
      = some (pending.dropLast, entered ++ [cdescr]) := by
  simp [stepElem, hlast, hu, hspan]

/-- The `Fun` arm ignores a function entry whose span does not match the top
pending call. -/
theorem stepElem_fun_skip (pending entered : List CallDescr) (cdescr : CallDescr)
    (pos : TermPos) (sp : RawSpan)
    (hu : pos.unwrap = some sp) (hlast : pending.getLast? = some cdescr)
    (hspan : cdescr.span ≠ sp) :
    stepElem (pending, entered) (StackElem.Fun pos) = some (pending, entered) := by
  simp [stepElem, hlast, hu, hspan]

/-- Unfolding one successful iteration of the merge loop. -/
theorem foldlM_step (e : StackElem) (l : List StackElem)
    (st st2 : List CallDescr × List CallDescr) (h : stepElem st e = some st2) :
    List.foldlM stepElem st (e :: l) = List.foldlM stepElem st2 l := by
  rw [List.foldlM_cons, h]
  rfl

/-! ## C2, C7, C8: the log mutators -/

/-- C2 (amended): `enter_app` and `enter_fun` append their marker exactly when
the position is defined, i.e. `Original` or `Inherited`; only the undefined
position is dropped. -/
theorem c2_push_guard (cs : CallStack) (sp : RawSpan) :
    CallStack.enter_app cs (TermPos.Original sp)
        = cs ++ [StackElem.App (TermPos.Original sp)]
    ∧ CallStack.enter_app cs (TermPos.Inherited sp)
        = cs ++ [StackElem.App (TermPos.Inherited sp)]
    ∧ CallStack.enter_app cs TermPos.None = cs
    ∧ CallStack.enter_fun cs (TermPos.Original sp)
        = cs ++ [StackElem.Fun (TermPos.Original sp)]
    ∧ CallStack.enter_fun cs (TermPos.Inherited sp)
        = cs ++ [StackElem.Fun (TermPos.Inherited sp)]
    ∧ CallStack.enter_fun cs TermPos.None = cs :=
  ⟨rfl, rfl, rfl, rfl, rfl, rfl⟩

/-- C2 counterexample: an application with an inherited (synthetic) position
is appended to the log, so the call does not leave the log unchanged as the
claim states for inherited positions. -/
theorem c2_counterexample :
    CallStack.enter_app [] (TermPos.Inherited ⟨0, 0, 1⟩) ≠ [] := by
  decide

/-- C7: `enter_app` and `enter_fun` are no-ops on an undefined position: the
log is returned unchanged. -/
theorem c7_undef_noop (cs : CallStack) (pos : TermPos) (h : pos.is_def = false) :
    CallStack.enter_app cs pos = cs ∧ CallStack.enter_fun cs pos = cs := by
  cases pos with
  | Original sp => simp [TermPos.is_def] at h
  | Inherited sp => simp [TermPos.is_def] at h
  | None => exact ⟨rfl, rfl⟩

/-- Witness for C7 at the undefined position and a concrete one-element log. -/
theorem c7_witness :
    CallStack.enter_app [StackElem.Fun TermPos.None] TermPos.None
        = [StackElem.Fun TermPos.None]
    ∧ CallStack.enter_fun [StackElem.Fun TermPos.None] TermPos.None
        = [StackElem.Fun TermPos.None] :=
  c7_undef_noop [StackElem.Fun TermPos.None] TermPos.None rfl

/-- C8: `truncate n` discards exactly the markers beyond index `n` (the result
has length `min n (len cs)` and agrees with the original log on every index
below `n`), and `truncate (len cs)` is a no-op. -/
theorem c8_truncate (cs : CallStack) (n : Nat) :
    (CallStack.truncate cs n).len = min n cs.len
    ∧ (∀ i, i < n → (CallStack.truncate cs n)[i]? = cs[i]?)
    ∧ CallStack.truncate cs cs.len = cs := by
  refine ⟨List.length_take n cs, fun i hi => ?_, List.take_length cs⟩
  rw [CallStack.truncate, List.getElem?_take, if_pos hi]

/-- Witness for C8 at a concrete log and cutoff. -/
theorem c8_witness :
    (CallStack.truncate [StackElem.Fun TermPos.None, StackElem.App TermPos.None,
        StackElem.Fun TermPos.None] 2).len
      = min 2 (CallStack.len [StackElem.Fun TermPos.None, StackElem.App TermPos.None,
        StackElem.Fun TermPos.None])
    ∧ (CallStack.truncate [StackElem.Fun TermPos.None, StackElem.App TermPos.None,
        StackElem.Fun TermPos.None] 2)[1]?
      = ([StackElem.Fun TermPos.None, StackElem.App TermPos.None,
        StackElem.Fun TermPos.None] : CallStack)[1]? := by
  obtain ⟨h1, h2, -⟩ := c8_truncate
    [StackElem.Fun TermPos.None, StackElem.App TermPos.None, StackElem.Fun TermPos.None] 2
  exact ⟨h1, h2 1 (by decide)⟩

/-! ## C1, C3, C4, C5: reconstruction scenarios -/

/-- C1 (amended): curried call collapse. For markers `App(span_abc)`,
`Var("f", p0)`, `App(span_ab)`, `App(span_a)` followed by the three matching
`Fun` markers in reverse nesting order - the identifier marker following the
outermost application marker, as produced by the evaluator - where all
positions are original and outside the builtin-contract file, `f` is not
generated, `p0` is contained in `span_abc`, and the three application spans
share a start offset and are strictly nested, `group_by_calls` returns
exactly one closed call `{head: some f, span: span_abc}` and no open call. -/
theorem c1_curried_collapse (contract_id : FileId) (kind : IdentKind) (f : Ident)
    (p0 spanA spanAB spanABC : RawSpan)
    (hgen : f.is_generated = false)
    (hp0src : p0.src_id ≠ contract_id)
    (hAsrc : spanA.src_id ≠ contract_id)
    (hABsrc : spanAB.src_id ≠ contract_id)
    (hABCsrc : spanABC.src_id ≠ contract_id)
    (hstartAB : spanAB.start = spanABC.start)
    (hstartA : spanA.start = spanABC.start)
    (hstopA : spanA.stop < spanAB.stop)
    (hstopAB : spanAB.stop < spanABC.stop)
    (hp0le : RawSpan.le p0 spanABC) :
    CallStack.group_by_calls
      [StackElem.App (TermPos.Original spanABC),
       StackElem.Var kind f (TermPos.Original p0),
       StackElem.App (TermPos.Original spanAB),
       StackElem.App (TermPos.Original spanA),
       StackElem.Fun (TermPos.Original spanA),
       StackElem.Fun (TermPos.Original spanAB),
       StackElem.Fun (TermPos.Original spanABC)] contract_id
    = some ([{ head := some f, span := spanABC }], none) := by
  have hneA : spanABC ≠ spanA := by
    intro h
    have := congrArg RawSpan.stop h
    omega
  have hneAB : spanABC ≠ spanAB := by
    intro h
    have := congrArg RawSpan.stop h
    omega
  have hleAB : RawSpan.le spanAB spanABC := ⟨by omega, by omega⟩
  have hleA : RawSpan.le spanA spanABC := ⟨by omega, by omega⟩
  have hfilter : List.filter (keepElem contract_id)
      [StackElem.App (TermPos.Original spanABC),
       StackElem.Var kind f (TermPos.Original p0),
       StackElem.App (TermPos.Original spanAB),
       StackElem.App (TermPos.Original spanA),
       StackElem.Fun (TermPos.Original spanA),
       StackElem.Fun (TermPos.Original spanAB),
       StackElem.Fun (TermPos.Original spanABC)]
      = [StackElem.App (TermPos.Original spanABC),
         StackElem.Var kind f (TermPos.Original p0),
         StackElem.App (TermPos.Original spanAB),
         StackElem.App (TermPos.Original spanA),
         StackElem.Fun (TermPos.Original spanA),
         StackElem.Fun (TermPos.Original spanAB),
         StackElem.Fun (TermPos.Original spanABC)] := by
    simp [List.filter_cons, keepElem, hgen, hp0src, hAsrc, hABsrc, hABCsrc]
  have s1 : stepElem ([], []) (StackElem.App (TermPos.Original spanABC))
      = some ([{ head := none, span := spanABC }], []) :=
    stepElem_app_first [] [] _ _ rfl rfl
  have s2 : stepElem ([{ head := none, span := spanABC }], [])
        (StackElem.Var kind f (TermPos.Original p0))
      = some ([{ head := some f, span := spanABC }], []) :=
    stepElem_var_name [{ head := none, span := spanABC }] [] { head := none, span := spanABC } kind f (TermPos.Original p0) p0 rfl rfl rfl hp0le
  have s3 : stepElem ([{ head := some f, span := spanABC }], [])
        (StackElem.App (TermPos.Original spanAB))
      = some ([{ head := some f, span := spanABC }], []) :=
    stepElem_app_absorb [{ head := some f, span := spanABC }] [] { head := some f, span := spanABC } (TermPos.Original spanAB) spanAB rfl rfl hleAB hstartAB
  have s4 : stepElem ([{ head := some f, span := spanABC }], [])
        (StackElem.App (TermPos.Original spanA))
      = some ([{ head := some f, span := spanABC }], []) :=
    stepElem_app_absorb [{ head := some f, span := spanABC }] [] { head := some f, span := spanABC } (TermPos.Original spanA) spanA rfl rfl hleA hstartA
  have s5 : stepElem ([{ head := some f, span := spanABC }], [])
        (StackElem.Fun (TermPos.Original spanA))
      = some ([{ head := some f, span := spanABC }], []) :=
    stepElem_fun_skip [{ head := some f, span := spanABC }] [] { head := some f, span := spanABC } (TermPos.Original spanA) spanA rfl rfl hneA
  have s6 : stepElem ([{ head := some f, span := spanABC }], [])
        (StackElem.Fun (TermPos.Original spanAB))
      = some ([{ head := some f, span := spanABC }], []) :=
    stepElem_fun_skip [{ head := some f, span := spanABC }] [] { head := some f, span := spanABC } (TermPos.Original spanAB) spanAB rfl rfl hneAB
  have s7 : stepElem ([{ head := some f, span := spanABC }], [])
        (StackElem.Fun (TermPos.Original spanABC))
      = some ([], [{ head := some f, span := spanABC }]) :=
    stepElem_fun_close [{ head := some f, span := spanABC }] [] { head := some f, span := spanABC } (TermPos.Original spanABC) spanABC rfl rfl rfl
  simp only [CallStack.group_by_calls, hfilter, List.foldlM_cons, List.foldlM_nil,
    s1, s2, s3, s4, s5, s6, s7, Option.bind_eq_bind, Option.some_bind]
  rfl

/-- Witness for C1 at concrete spans in file 1 with contract file 0. -/
theorem c1_witness :
    CallStack.group_by_calls
      [StackElem.App (TermPos.Original ⟨1, 0, 10⟩),
       StackElem.Var IdentKind.Let ⟨"f", false⟩ (TermPos.Original ⟨1, 0, 1⟩),
       StackElem.App (TermPos.Original ⟨1, 0, 7⟩),
       StackElem.App (TermPos.Original ⟨1, 0, 4⟩),
       StackElem.Fun (TermPos.Original ⟨1, 0, 4⟩),
       StackElem.Fun (TermPos.Original ⟨1, 0, 7⟩),
       StackElem.Fun (TermPos.Original ⟨1, 0, 10⟩)] 0
    = some ([{ head := some ⟨"f", false⟩, span := ⟨1, 0, 10⟩ }], none) :=
  c1_curried_collapse 0 IdentKind.Let ⟨"f", false⟩ ⟨1, 0, 1⟩ ⟨1, 0, 4⟩ ⟨1, 0, 7⟩
    ⟨1, 0, 10⟩ rfl (by decide) (by decide) (by decide) (by decide) rfl rfl
    (by decide) (by decide) (by decide)

/-- C1 counterexample: with the markers in the order the claim states - the
`Var` marker before the first `App` marker - the variable cannot name any
pending call (none exists yet), so the returned call has no head: the claimed
output `{head: some "f", span: span_abc}` is not produced. -/
theorem c1_counterexample :
    CallStack.group_by_calls
      [StackElem.Var IdentKind.Let ⟨"f", false⟩ (TermPos.Original ⟨1, 0, 1⟩),
       StackElem.App (TermPos.Original ⟨1, 0, 10⟩),
       StackElem.App (TermPos.Original ⟨1, 0, 7⟩),
       StackElem.App (TermPos.Original ⟨1, 0, 4⟩),
       StackElem.Fun (TermPos.Original ⟨1, 0, 4⟩),
       StackElem.Fun (TermPos.Original ⟨1, 0, 7⟩),
       StackElem.Fun (TermPos.Original ⟨1, 0, 10⟩)] 0
    ≠ some ([{ head := some ⟨"f", false⟩, span := ⟨1, 0, 10⟩ }], none) := by
  decide

/-- C4 (amended): unmatched open call. For markers `App(s1)`, `Var("g", p)` -
the identifier marker following the application marker, as produced by the
evaluator - with no following `Fun(s1)`, where the positions are original and
outside the builtin-contract file, `g` is not generated and `p` is contained
in `s1`, `group_by_calls` returns no closed call and the open call
`{head: some g, span: s1}`. -/
theorem c4_open_call (contract_id : FileId) (kind : IdentKind) (g : Ident)
    (p s1 : RawSpan)
    (hgen : g.is_generated = false)
    (hpsrc : p.src_id ≠ contract_id)
    (hssrc : s1.src_id ≠ contract_id)
    (hple : RawSpan.le p s1) :
    CallStack.group_by_calls
      [StackElem.App (TermPos.Original s1),
       StackElem.Var kind g (TermPos.Original p)] contract_id
    = some ([], some { head := some g, span := s1 }) := by
  have hfilter : List.filter (keepElem contract_id)
      [StackElem.App (TermPos.Original s1), StackElem.Var kind g (TermPos.Original p)]
      = [StackElem.App (TermPos.Original s1), StackElem.Var kind g (TermPos.Original p)] := by
    simp [List.filter_cons, keepElem, hgen, hpsrc, hssrc]
  have t1 : stepElem ([], []) (StackElem.App (TermPos.Original s1))
      = some ([{ head := none, span := s1 }], []) :=
    stepElem_app_first [] [] _ _ rfl rfl
  have t2 : stepElem ([{ head := none, span := s1 }], [])
        (StackElem.Var kind g (TermPos.Original p))
      = some ([{ head := some g, span := s1 }], []) :=
    stepElem_var_name [{ head := none, span := s1 }] [] { head := none, span := s1 }
      kind g (TermPos.Original p) p rfl rfl rfl hple
  simp only [CallStack.group_by_calls, hfilter, List.foldlM_cons, List.foldlM_nil,
    t1, t2, Option.bind_eq_bind, Option.some_bind]
  rfl

/-- Witness for C4 at concrete spans in file 1 with contract file 0. -/
theorem c4_witness :
    CallStack.group_by_calls
      [StackElem.App (TermPos.Original ⟨1, 0, 5⟩),
       StackElem.Var IdentKind.Let ⟨"g", false⟩ (TermPos.Original ⟨1, 0, 1⟩)] 0
    = some ([], some { head := some ⟨"g", false⟩, span := ⟨1, 0, 5⟩ }) :=
  c4_open_call 0 IdentKind.Let ⟨"g", false⟩ ⟨1, 0, 1⟩ ⟨1, 0, 5⟩ rfl (by decide)
    (by decide) (by decide)

/-- C4 counterexample: with the markers in the order the claim states - the
`Var` marker before the `App` marker - the open call is returned without a
head, not with `head: some "g"` as claimed. -/
theorem c4_counterexample :
    CallStack.group_by_calls
      [StackElem.Var IdentKind.Let ⟨"g", false⟩ (TermPos.Original ⟨1, 0, 1⟩),
       StackElem.App (TermPos.Original ⟨1, 0, 5⟩)] 0
    ≠ some ([], some { head := some ⟨"g", false⟩, span := ⟨1, 0, 5⟩ }) := by
  decide

/-- C5: ordering of the result. For two sequentially closed, non-overlapping
calls - a call to `f` first, a call to `h` later, each application marker
followed by its naming identifier and its matching function entry, all
positions original and outside the builtin-contract file - the returned list
places the call to `h` before the call to `f`: most recently closed first. -/
theorem c5_ordering (contract_id : FileId) (kindf kindh : IdentKind)
    (f h : Ident) (pf ph sf sh : RawSpan)
    (hgenf : f.is_generated = false) (hgenh : h.is_generated = false)
    (hpfsrc : pf.src_id ≠ contract_id) (hphsrc : ph.src_id ≠ contract_id)
    (hsfsrc : sf.src_id ≠ contract_id) (hshsrc : sh.src_id ≠ contract_id)
    (hplef : RawSpan.le pf sf) (hpleh : RawSpan.le ph sh)
    (hsep : sf.stop ≤ sh.start) :
    CallStack.group_by_calls
      [StackElem.App (TermPos.Original sf),
       StackElem.Var kindf f (TermPos.Original pf),
       StackElem.Fun (TermPos.Original sf),
       StackElem.App (TermPos.Original sh),
       StackElem.Var kindh h (TermPos.Original ph),
       StackElem.Fun (TermPos.Original sh)] contract_id
    = some ([{ head := some h, span := sh }, { head := some f, span := sf }], none) := by
  have hfilter : List.filter (keepElem contract_id)
      [StackElem.App (TermPos.Original sf),
       StackElem.Var kindf f (TermPos.Original pf),
       StackElem.Fun (TermPos.Original sf),
       StackElem.App (TermPos.Original sh),
       StackElem.Var kindh h (TermPos.Original ph),
       StackElem.Fun (TermPos.Original sh)]
      = [StackElem.App (TermPos.Original sf),
         StackElem.Var kindf f (TermPos.Original pf),
         StackElem.Fun (TermPos.Original sf),
         StackElem.App (TermPos.Original sh),
         StackElem.Var kindh h (TermPos.Original ph),
         StackElem.Fun (TermPos.Original sh)] := by
    simp [List.filter_cons, keepElem, hgenf, hgenh, hpfsrc, hphsrc, hsfsrc, hshsrc]
  have u1 : stepElem ([], []) (StackElem.App (TermPos.Original sf))
      = some ([{ head := none, span := sf }], []) :=
    stepElem_app_first [] [] _ _ rfl rfl
  have u2 : stepElem ([{ head := none, span := sf }], [])
        (StackElem.Var kindf f (TermPos.Original pf))
      = some ([{ head := some f, span := sf }], []) :=
    stepElem_var_name [{ head := none, span := sf }] [] { head := none, span := sf }
      kindf f (TermPos.Original pf) pf rfl rfl rfl hplef
  have u3 : stepElem ([{ head := some f, span := sf }], [])
        (StackElem.Fun (TermPos.Original sf))
      = some ([], [{ head := some f, span := sf }]) :=
    stepElem_fun_close [{ head := some f, span := sf }] [] { head := some f, span := sf }
      (TermPos.Original sf) sf rfl rfl rfl
  have u4 : stepElem ([], [{ head := some f, span := sf }])
        (StackElem.App (TermPos.Original sh))
      = some ([{ head := none, span := sh }], [{ head := some f, span := sf }]) :=
    stepElem_app_first [] [{ head := some f, span := sf }] _ _ rfl rfl
  have u5 : stepElem ([{ head := none, span := sh }], [{ head := some f, span := sf }])
        (StackElem.Var kindh h (TermPos.Original ph))
      = some ([{ head := some h, span := sh }], [{ head := some f, span := sf }]) :=
    stepElem_var_name [{ head := none, span := sh }] [{ head := some f, span := sf }]
      { head := none, span := sh } kindh h (TermPos.Original ph) ph rfl rfl rfl hpleh
  have u6 : stepElem ([{ head := some h, span := sh }], [{ head := some f, span := sf }])
        (StackElem.Fun (TermPos.Original sh))
      = some ([], [{ head := some f, span := sf }, { head := some h, span := sh }]) :=
    stepElem_fun_close [{ head := some h, span := sh }] [{ head := some f, span := sf }]
      { head := some h, span := sh } (TermPos.Original sh) sh rfl rfl rfl
  simp only [CallStack.group_by_calls, hfilter, List.foldlM_cons, List.foldlM_nil,
    u1, u2, u3, u4, u5, u6, Option.bind_eq_bind, Option.some_bind]
  rfl

/-- Witness for C5 at concrete spans in file 1 with contract file 0. -/
theorem c5_witness :
    CallStack.group_by_calls
      [StackElem.App (TermPos.Original ⟨1, 0, 4⟩),
       StackElem.Var IdentKind.Let ⟨"f", false⟩ (TermPos.Original ⟨1, 0, 1⟩),
       StackElem.Fun (TermPos.Original ⟨1, 0, 4⟩),
       StackElem.App (TermPos.Original ⟨1, 5, 9⟩),
       StackElem.Var IdentKind.Let ⟨"h", false⟩ (TermPos.Original ⟨1, 5, 6⟩),
       StackElem.Fun (TermPos.Original ⟨1, 5, 9⟩)] 0
    = some ([{ head := some ⟨"h", false⟩, span := ⟨1, 5, 9⟩ },
             { head := some ⟨"f", false⟩, span := ⟨1, 0, 4⟩ }], none) :=
  c5_ordering 0 IdentKind.Let IdentKind.Let ⟨"f", false⟩ ⟨"h", false⟩
    ⟨1, 0, 1⟩ ⟨1, 5, 6⟩ ⟨1, 0, 4⟩ ⟨1, 5, 9⟩ rfl rfl (by decide) (by decide)
    (by decide) (by decide) (by decide) (by decide) (by decide)

/-- Markers attributed to the builtin-contract file are always dropped by the
filter of `group_by_calls`. -/
theorem keepElem_eq_false_of_attributedIn (f : FileId) (e : StackElem)
    (h : e.attributedIn f = true) : keepElem f e = false := by
  cases e with
  | Fun pos => cases pos <;>
      simp_all [StackElem.attributedIn, StackElem.attrPos, keepElem]
  | App pos => cases pos <;>
      simp_all [StackElem.attributedIn, StackElem.attrPos, keepElem]
  | Var kind id pos => cases pos <;>
      simp_all [StackElem.attributedIn, StackElem.attrPos, keepElem]
  | Field id pos_record pos_field pos_access => cases pos_access <;>
      simp_all [StackElem.attributedIn, StackElem.attrPos, keepElem]

/-- C3: for a log in which every marker's attributed position lies in the
builtin-contract file, `group_by_calls` returns an empty closed-call list and
no open call. -/
theorem c3_builtin_only_empty (cs : CallStack) (builtin_file_id : FileId)
    (h : ∀ e ∈ cs, e.attributedIn builtin_file_id = true) :
    CallStack.group_by_calls cs builtin_file_id = some ([], none) := by
  have hf : List.filter (keepElem builtin_file_id) cs = [] := by
    rw [List.filter_eq_nil_iff]
    intro e he
    simp [keepElem_eq_false_of_attributedIn builtin_file_id e (h e he)]
  simp only [CallStack.group_by_calls, hf, List.foldlM_nil]
  rfl

/-- Witness for C3 at a concrete builtin-only log. -/
theorem c3_witness :
    CallStack.group_by_calls
      [StackElem.App (TermPos.Original ⟨0, 0, 10⟩),
       StackElem.Var IdentKind.Let ⟨"f", false⟩ (TermPos.Original ⟨0, 0, 1⟩),
       StackElem.Fun (TermPos.Inherited ⟨0, 0, 10⟩)] 0 = some ([], none) :=
  c3_builtin_only_empty _ 0 (by decide)

/-! ## C6, C9, C10: invariants of the merge loop -/

/-- Invariant propagation through the merge loop, run in the `Option` monad:
if every processed marker satisfies `Q` and each step preserves `P`, the fold
succeeds and its final state satisfies `P`. -/
theorem foldlM_inv {P : List CallDescr × List CallDescr → Prop}
    {Q : StackElem → Prop}
    (hstep : ∀ st e, Q e → P st → ∃ st2, stepElem st e = some st2 ∧ P st2) :
    ∀ (l : List StackElem) (st : List CallDescr × List CallDescr),
      (∀ e ∈ l, Q e) → P st →
      ∃ st2, List.foldlM stepElem st l = some st2 ∧ P st2 := by
  intro l
  induction l with
  | nil => exact fun st _ hP => ⟨st, rfl, hP⟩
  | cons e l ih =>
      intro st hQ hP
      obtain ⟨st2, he, hP2⟩ := hstep st e (hQ e (List.mem_cons_self e l)) hP
      obtain ⟨st3, hl, hP3⟩ := ih st2 (fun x hx => hQ x (List.mem_cons_of_mem e hx)) hP2
      refine ⟨st3, ?_, hP3⟩
      rw [List.foldlM_cons, he]
      exact hl

/-- A marker that survives the filter has a defined attributed position, whose
file is not the builtin-contract file. -/
theorem attr_unwrap_of_keep (contract_id : FileId) (e : StackElem)
    (hk : keepElem contract_id e = true) :
    ∃ sp, e.attrPos.unwrap = some sp ∧ sp.src_id ≠ contract_id := by
  cases e with
  | Fun pos => cases pos with
      | Original sp => exact ⟨sp, rfl, by simpa [keepElem] using hk⟩
      | Inherited sp => simp [keepElem] at hk
      | None => simp [keepElem] at hk
  | App pos => cases pos with
      | Original sp => exact ⟨sp, rfl, by simpa [keepElem] using hk⟩
      | Inherited sp => simp [keepElem] at hk
      | None => simp [keepElem] at hk
  | Var kind id pos =>
      cases hg : id.is_generated with
      | true => simp [keepElem, hg] at hk
      | false =>
          cases pos with
          | Original sp => exact ⟨sp, rfl, by simpa [keepElem, hg] using hk⟩
          | Inherited sp => exact ⟨sp, rfl, by simpa [keepElem, hg] using hk⟩
          | None => simp [keepElem, hg] at hk
  | Field id pos_record pos_field pos_access =>
      cases pos_access with
      | Original sp => exact ⟨sp, rfl, by simpa [keepElem] using hk⟩
      | Inherited sp => exact ⟨sp, rfl, by simpa [keepElem] using hk⟩
      | None => simp [keepElem] at hk

/-- An `App` marker that survives the filter carries an original position
outside the builtin-contract file. -/
theorem keep_app_original (contract_id : FileId) (pos : TermPos)
    (hk : keepElem contract_id (StackElem.App pos) = true) :
    ∃ sp, pos = TermPos.Original sp ∧ sp.src_id ≠ contract_id := by
  cases pos with
  | Original sp => exact ⟨sp, rfl, by simpa [keepElem] using hk⟩
  | Inherited sp => simp [keepElem] at hk
  | None => simp [keepElem] at hk

/-- An identifier offered as a call head by a surviving `Var` marker, or by a
`Field` marker with a user-written identifier, is not generated. -/
theorem varFieldId_ungenerated (contract_id : FileId) (e : StackElem) (id : Ident)
    (hk : keepElem contract_id e = true) (hf : e.fieldUngenerated = true)
    (hid : e.varFieldId = some id) : id.is_generated = false := by
  cases e with
  | Fun pos => simp [StackElem.varFieldId] at hid
  | App pos => simp [StackElem.varFieldId] at hid
  | Var kind id2 pos =>
      have hid2 : id2 = id := by simpa [StackElem.varFieldId] using hid
      cases hg : id2.is_generated with
      | true => simp [keepElem, hg] at hk
      | false => rw [← hid2]; exact hg
  | Field id2 pos_record pos_field pos_access =>
      have hid2 : id2 = id := by simpa [StackElem.varFieldId] using hid
      rw [← hid2]
      simpa [StackElem.fieldUngenerated] using hf

/-- The merge step never panics on a marker that survived the filter: its
attributed position is defined, so every `unwrap` succeeds. -/
theorem stepElem_some_of_keep (contract_id : FileId)
    (pending entered : List CallDescr) (e : StackElem)
    (hk : keepElem contract_id e = true) :
    ∃ st2, stepElem (pending, entered) e = some st2 := by
  obtain ⟨sp, hu, -⟩ := attr_unwrap_of_keep contract_id e hk
  cases e with
  | Var kind id pos =>
      simp only [StackElem.attrPos] at hu
      cases hgl : pending.getLast? with
      | none => exact ⟨(pending, entered), by simp [stepElem, hgl]⟩
      | some c =>
          simp only [stepElem, hgl, hu]
          split
          · split
            · exact ⟨_, rfl⟩
            · exact ⟨_, rfl⟩
          · exact ⟨_, rfl⟩
  | Field id pos_record pos_field pos_access =>
      simp only [StackElem.attrPos] at hu
      cases hgl : pending.getLast? with
      | none => exact ⟨(pending, entered), by simp [stepElem, hgl]⟩
      | some c =>
          simp only [stepElem, hgl, hu]
          split
          · split
            · exact ⟨_, rfl⟩
            · exact ⟨_, rfl⟩
          · exact ⟨_, rfl⟩
  | App pos =>
      simp only [StackElem.attrPos] at hu
      simp only [stepElem, hu]
      cases hgl : pending.getLast? with
      | none => simp [hgl]
      | some c =>
          simp only [hgl]
          split
          · exact ⟨_, rfl⟩
          · exact ⟨_, rfl⟩
  | Fun pos =>
      simp only [StackElem.attrPos] at hu
      simp only [stepElem, hu]
      cases hgl : pending.getLast? with
      | none => simp [hgl]
      | some c =>
          simp only [hgl]
          split
          · exact ⟨_, rfl⟩
          · exact ⟨_, rfl⟩

/-- Case analysis of a successful merge step: the state is unchanged, or the
top pending call is named by the marker identifier, or an `App` pushes a
fresh headless call, or a `Fun` closes the top pending call. -/
theorem stepElem_shape (pending entered : List CallDescr) (e : StackElem)
    (st2 : List CallDescr × List CallDescr)
    (h : stepElem (pending, entered) e = some st2) :
    st2 = (pending, entered)
    ∨ (∃ cdescr id, pending.getLast? = some cdescr ∧ e.varFieldId = some id ∧
        st2 = (pending.dropLast ++ [{ cdescr with head := some id }], entered))
    ∨ (∃ pos sp, e = StackElem.App pos ∧ pos.unwrap = some sp ∧
        st2 = (pending ++ [{ head := none, span := sp }], entered))
    ∨ (∃ cdescr, pending.getLast? = some cdescr ∧
        st2 = (pending.dropLast, entered ++ [cdescr])) := by
  cases e with
  | Var kind id pos =>
      simp only [stepElem] at h
      split at h
      · rename_i cdescr heq
        split at h
        · rename_i hh
          split at h
          · exact absurd h (by simp)
          · split at h
            · rename_i p hu hle
              right; left
              exact ⟨cdescr, id, heq, rfl, ((Option.some.injEq _ _).mp h).symm⟩
            · left; exact ((Option.some.injEq _ _).mp h).symm
        · left; exact ((Option.some.injEq _ _).mp h).symm
      · left; exact ((Option.some.injEq _ _).mp h).symm
  | Field id pos_record pos_field pos_access =>
      simp only [stepElem] at h
      split at h
      · rename_i cdescr heq
        split at h
        · rename_i hh
          split at h
          · exact absurd h (by simp)
          · split at h
            · rename_i p hu hle
              right; left
              exact ⟨cdescr, id, heq, rfl, ((Option.some.injEq _ _).mp h).symm⟩
            · left; exact ((Option.some.injEq _ _).mp h).symm
        · left; exact ((Option.some.injEq _ _).mp h).symm
      · left; exact ((Option.some.injEq _ _).mp h).symm
  | App pos =>
      simp only [stepElem] at h
      split at h
      · exact absurd h (by simp)
      · rename_i sp hu
        split at h
        · rename_i cdescr heq
          split at h
          · left; exact ((Option.some.injEq _ _).mp h).symm
          · right; right; left
            exact ⟨pos, sp, rfl, hu, ((Option.some.injEq _ _).mp h).symm⟩
        · right; right; left
          exact ⟨pos, sp, rfl, hu, ((Option.some.injEq _ _).mp h).symm⟩
  | Fun pos =>
      simp only [stepElem] at h
      split at h
      · exact absurd h (by simp)
      · rename_i sp hu
        split at h
        · rename_i cdescr heq
          split at h
          · rename_i hsp
            right; right; right
            exact ⟨cdescr, heq, ((Option.some.injEq _ _).mp h).symm⟩
          · left; exact ((Option.some.injEq _ _).mp h).symm
        · left; exact ((Option.some.injEq _ _).mp h).symm

/-- Reconstruction always succeeds: `group_by_calls` returns a result on every
log, with no `unwrap` panic. -/
theorem group_by_calls_isSome (cs : CallStack) (contract_id : FileId) :
    ∃ r, CallStack.group_by_calls cs contract_id = some r := by
  obtain ⟨st2, hfold, -⟩ := foldlM_inv (P := fun _ => True)
    (Q := fun e => keepElem contract_id e = true)
    (fun st e hQ _ => by
      obtain ⟨st2, h2⟩ := stepElem_some_of_keep contract_id st.1 st.2 e hQ
      exact ⟨st2, h2, trivial⟩)
    (List.filter (keepElem contract_id) cs) ([], [])
    (fun e he => (List.mem_filter.mp he).2) trivial
  exact ⟨(st2.2.reverse, st2.1.getLast?), by
    simp only [CallStack.group_by_calls, hfold]⟩

/-- C9: totality of reconstruction. For every call log, every marker that
survives the filter stage carries a defined position, so none of the
`pos.unwrap()` calls of the merge loop panics (modelled: none returns `none`)
and `group_by_calls` always returns a result. -/
theorem c9_total (cs : CallStack) (contract_id : FileId) :
    (CallStack.group_by_calls cs contract_id).isSome = true := by
  obtain ⟨r, hr⟩ := group_by_calls_isSome cs contract_id
  rw [hr]
  rfl

/-- C10: output-span invariant. Every call description returned by
`group_by_calls`, closed or open, takes its span from some `App` marker of the
log whose position is original and outside the builtin-contract file. -/
theorem c10_output_spans (cs : CallStack) (contract_id : FileId)
    (closed : List CallDescr) (opn : Option CallDescr)
    (h : CallStack.group_by_calls cs contract_id = some (closed, opn)) :
    (∀ c ∈ closed, StackElem.App (TermPos.Original c.span) ∈ cs
        ∧ c.span.src_id ≠ contract_id)
    ∧ (∀ c, opn = some c → StackElem.App (TermPos.Original c.span) ∈ cs
        ∧ c.span.src_id ≠ contract_id) := by
  obtain ⟨st2, hfold, hP⟩ := foldlM_inv
    (P := fun st => ∀ c, (c ∈ st.1 ∨ c ∈ st.2) →
        StackElem.App (TermPos.Original c.span) ∈ cs ∧ c.span.src_id ≠ contract_id)
    (Q := fun e => keepElem contract_id e = true ∧ e ∈ cs)
    (fun st e hQ hP => by
      obtain ⟨hk, hmem⟩ := hQ
      obtain ⟨st2, hsome⟩ := stepElem_some_of_keep contract_id st.1 st.2 e hk
      refine ⟨st2, hsome, ?_⟩
      rcases stepElem_shape st.1 st.2 e st2 hsome with hcase
        | ⟨c, id, hgl, hvf, hcase⟩ | ⟨pos, sp, he, hu, hcase⟩ | ⟨c, hgl, hcase⟩
      · rw [hcase]; exact hP
      · rw [hcase]
        intro x hx
        rcases hx with hx | hx
        · rcases List.mem_append.mp hx with hx | hx
          · exact hP x (Or.inl (List.dropLast_subset _ hx))
          · have hxe : x = { c with head := some id } := by simpa using hx
            rw [hxe]
            exact hP c (Or.inl (List.mem_of_mem_getLast? hgl))
        · exact hP x (Or.inr hx)
      · rw [hcase]
        intro x hx
        rcases hx with hx | hx
        · rcases List.mem_append.mp hx with hx | hx
          · exact hP x (Or.inl hx)
          · have hxe : x = { head := none, span := sp } := by simpa using hx
            obtain ⟨sp2, hpos, hsrc⟩ := keep_app_original contract_id pos (he ▸ hk)
            rw [hpos] at hu
            have hsp : sp2 = sp := by simpa [TermPos.unwrap] using hu
            rw [hxe]
            rw [he, hpos, hsp] at hmem
            exact ⟨hmem, hsp ▸ hsrc⟩
        · exact hP x (Or.inr hx)
      · rw [hcase]
        intro x hx
        rcases hx with hx | hx
        · exact hP x (Or.inl (List.dropLast_subset _ hx))
        · rcases List.mem_append.mp hx with hx | hx
          · exact hP x (Or.inr hx)
          · have hxe : x = c := by simpa using hx
            rw [hxe]
            exact hP c (Or.inl (List.mem_of_mem_getLast? hgl)))
    (List.filter (keepElem contract_id) cs) ([], [])
    (fun e he => ⟨(List.mem_filter.mp he).2, (List.mem_filter.mp he).1⟩)
    (by simp)
  simp only [CallStack.group_by_calls, hfold, Option.some.injEq, Prod.mk.injEq] at h
  obtain ⟨h1, h2⟩ := h
  constructor
  · intro c hc
    rw [← h1] at hc
    exact hP c (Or.inr (List.mem_reverse.mp hc))
  · intro c hc
    rw [← h2] at hc
    exact hP c (Or.inl (List.mem_of_mem_getLast? hc))

/-- C6 (amended): in a call log in which every `Field` marker carries a
user-written identifier, no call description returned by `group_by_calls` has
a compiler-generated head. The filter drops generated `Var` identifiers, but
does not inspect `Field` identifiers. -/
theorem c6_no_generated_heads (cs : CallStack) (contract_id : FileId)
    (closed : List CallDescr) (opn : Option CallDescr)
    (hfield : ∀ e ∈ cs, StackElem.fieldUngenerated e = true)
    (h : CallStack.group_by_calls cs contract_id = some (closed, opn)) :
    (∀ c ∈ closed, c.headUngenerated = true)
    ∧ (∀ c, opn = some c → c.headUngenerated = true) := by
  obtain ⟨st2, hfold, hP⟩ := foldlM_inv
    (P := fun st => ∀ c, (c ∈ st.1 ∨ c ∈ st.2) → c.headUngenerated = true)
    (Q := fun e => keepElem contract_id e = true ∧ e.fieldUngenerated = true)
    (fun st e hQ hP => by
      obtain ⟨hk, hfu⟩ := hQ
      obtain ⟨st2, hsome⟩ := stepElem_some_of_keep contract_id st.1 st.2 e hk
      refine ⟨st2, hsome, ?_⟩
      rcases stepElem_shape st.1 st.2 e st2 hsome with hcase
        | ⟨c, id, hgl, hvf, hcase⟩ | ⟨pos, sp, he, hu, hcase⟩ | ⟨c, hgl, hcase⟩
      · rw [hcase]; exact hP
      · rw [hcase]
        intro x hx
        rcases hx with hx | hx
        · rcases List.mem_append.mp hx with hx | hx
          · exact hP x (Or.inl (List.dropLast_subset _ hx))
          · have hxe : x = { c with head := some id } := by simpa using hx
            rw [hxe]
            have hidg := varFieldId_ungenerated contract_id e id hk hfu hvf
            simp [CallDescr.headUngenerated, hidg]
        · exact hP x (Or.inr hx)
      · rw [hcase]
        intro x hx
        rcases hx with hx | hx
        · rcases List.mem_append.mp hx with hx | hx
          · exact hP x (Or.inl hx)
          · have hxe : x = { head := none, span := sp } := by simpa using hx
            rw [hxe]
            rfl
        · exact hP x (Or.inr hx)
      · rw [hcase]
        intro x hx
        rcases hx with hx | hx
        · exact hP x (Or.inl (List.dropLast_subset _ hx))
        · rcases List.mem_append.mp hx with hx | hx
          · exact hP x (Or.inr hx)
          · have hxe : x = c := by simpa using hx
            rw [hxe]
            exact hP c (Or.inl (List.mem_of_mem_getLast? hgl)))
    (List.filter (keepElem contract_id) cs) ([], [])
    (fun e he => ⟨(List.mem_filter.mp he).2, hfield e (List.mem_filter.mp he).1⟩)
    (by simp)
  simp only [CallStack.group_by_calls, hfold, Option.some.injEq, Prod.mk.injEq] at h
  obtain ⟨h1, h2⟩ := h
  constructor
  · intro c hc
    rw [← h1] at hc
    exact hP c (Or.inr (List.mem_reverse.mp hc))
  · intro c hc
    rw [← h2] at hc
    exact hP c (Or.inl (List.mem_of_mem_getLast? hc))

/-- C6 counterexample: a `Field` marker carrying a compiler-generated
identifier passes the filter (which only tests `Var` identifiers for
generatedness) and names the open call, so a generated identifier does become
a returned head. -/
theorem c6_counterexample :
    CallStack.group_by_calls
      [StackElem.App (TermPos.Original ⟨1, 0, 10⟩),
       StackElem.Field ⟨"gen", true⟩ TermPos.None TermPos.None
         (TermPos.Original ⟨1, 2, 3⟩)] 0
      = some ([], some { head := some ⟨"gen", true⟩, span := ⟨1, 0, 10⟩ })
    ∧ Ident.is_generated ⟨"gen", true⟩ = true := by
  exact ⟨by decide, rfl⟩

/-- Witness for C6 at a concrete log with no `Field` marker. -/
theorem c6_witness :
    (∀ c ∈ [({ head := some ⟨"f", false⟩, span := ⟨1, 0, 10⟩ } : CallDescr)],
        CallDescr.headUngenerated c = true)
    ∧ (∀ c, (none : Option CallDescr) = some c → CallDescr.headUngenerated c = true) :=
  c6_no_generated_heads
    [StackElem.App (TermPos.Original ⟨1, 0, 10⟩),
     StackElem.Var IdentKind.Let ⟨"f", false⟩ (TermPos.Original ⟨1, 0, 1⟩),
     StackElem.Fun (TermPos.Original ⟨1, 0, 10⟩)] 0
    [{ head := some ⟨"f", false⟩, span := ⟨1, 0, 10⟩ }] none
    (by decide) (by decide)

/-- Witness for C10 at a concrete log with one closed call. -/
theorem c10_witness :
    (∀ c ∈ [({ head := some ⟨"f", false⟩, span := ⟨1, 0, 10⟩ } : CallDescr)],
        StackElem.App (TermPos.Original c.span) ∈
          ([StackElem.App (TermPos.Original ⟨1, 0, 10⟩),
            StackElem.Var IdentKind.Let ⟨"f", false⟩ (TermPos.Original ⟨1, 0, 1⟩),
            StackElem.Fun (TermPos.Original ⟨1, 0, 10⟩)] : CallStack)
        ∧ c.span.src_id ≠ 0)
    ∧ (∀ c, (none : Option CallDescr) = some c →
        StackElem.App (TermPos.Original c.span) ∈
          ([StackElem.App (TermPos.Original ⟨1, 0, 10⟩),
            StackElem.Var IdentKind.Let ⟨"f", false⟩ (TermPos.Original ⟨1, 0, 1⟩),
            StackElem.Fun (TermPos.Original ⟨1, 0, 10⟩)] : CallStack)
        ∧ c.span.src_id ≠ 0) :=
  c10_output_spans
    [StackElem.App (TermPos.Original ⟨1, 0, 10⟩),
     StackElem.Var IdentKind.Let ⟨"f", false⟩ (TermPos.Original ⟨1, 0, 1⟩),
     StackElem.Fun (TermPos.Original ⟨1, 0, 10⟩)] 0
    [{ head := some ⟨"f", false⟩, span := ⟨1, 0, 10⟩ }] none
    (by decide)
